import Mathlib

/-!
Verification of the GSAP model-based prognostics core: the `Battery`
electrochemical model (`src/framework/src/Battery.cpp`) and the
`ModelBasedPrognoser` pipeline orchestrator
(`src/framework/src/ModelBasedPrognoser.cpp`).

The C++ code computes with `double`; we embed the arithmetic over `ℚ` and
abstract the transcendental library functions (`log`, `asinh`, and
`pow(base, exponent)` with a fractional exponent) as an explicit record of
function parameters (`RealFuns`).  Every claim settled below holds for all
interpretations of those functions, or is refuted for a particular one.
Integer-exponent `pow` calls are embedded as monoid powers.
-/

/-- Abstract interpretations of the C math-library functions used by
`Battery.cpp`: `log`, `asinh`, and real-exponent `pow`. -/
structure RealFuns where
  log : ℚ → ℚ
  asinh : ℚ → ℚ
  rpow : ℚ → ℚ → ℚ

/-- Interpretation sending every transcendental call to `0`; used to
instantiate counterexamples and witnesses on concrete inputs. -/
def zeroFuns : RealFuns :=
  { log := fun _ => 0, asinh := fun _ => 0, rpow := fun _ _ => 0 }

/-- The parameter record of the battery model (`BatteryModel` struct filled in
by `Battery::setParameters`, `Battery.cpp` lines 267 to 353). -/
structure BatteryParams where
  qMobile : ℚ
  xnMax : ℚ
  xnMin : ℚ
  xpMax : ℚ
  xpMin : ℚ
  qMax : ℚ
  Ro : ℚ
  R : ℚ
  F : ℚ
  alpha : ℚ
  Sn : ℚ
  Sp : ℚ
  kn : ℚ
  kp : ℚ
  Vol : ℚ
  VolSFraction : ℚ
  VolS : ℚ
  VolB : ℚ
  qpMin : ℚ
  qpMax : ℚ
  qpSMin : ℚ
  qpBMin : ℚ
  qpSMax : ℚ
  qpBMax : ℚ
  qnMin : ℚ
  qnMax : ℚ
  qnSMax : ℚ
  qnBMax : ℚ
  qnSMin : ℚ
  qnBMin : ℚ
  qSMax : ℚ
  qBMax : ℚ
  tDiffusion : ℚ
  «to» : ℚ
  tsn : ℚ
  tsp : ℚ
  U0p : ℚ
  Ap0 : ℚ
  Ap1 : ℚ
  Ap2 : ℚ
  Ap3 : ℚ
  Ap4 : ℚ
  Ap5 : ℚ
  Ap6 : ℚ
  Ap7 : ℚ
  Ap8 : ℚ
  Ap9 : ℚ
  Ap10 : ℚ
  Ap11 : ℚ
  Ap12 : ℚ
  U0n : ℚ
  An0 : ℚ
  An1 : ℚ
  An2 : ℚ
  An3 : ℚ
  An4 : ℚ
  An5 : ℚ
  An6 : ℚ
  An7 : ℚ
  An8 : ℚ
  An9 : ℚ
  An10 : ℚ
  An11 : ℚ
  An12 : ℚ
  VEOD : ℚ
deriving DecidableEq

/-- `Battery::setParameters(qMobile)` (`Battery.cpp` lines 267 to 353):
all model parameters as deterministic functions of `qMobile`. -/
def Battery.setParameters (qMobile : ℚ) : BatteryParams :=
  let xnMax : ℚ := 0.6
  let xnMin : ℚ := 0
  let xpMax : ℚ := 1.0
  let xpMin : ℚ := 0.4
  let qMax : ℚ := qMobile / (xnMax - xnMin)
  let Vol : ℚ := 2e-5
  let VolSFraction : ℚ := 0.1
  let VolS : ℚ := VolSFraction * Vol
  let VolB : ℚ := Vol - VolS
  let qpMin : ℚ := qMax * xpMin
  let qpMax : ℚ := qMax * xpMax
  let qnMin : ℚ := qMax * xnMin
  let qnMax : ℚ := qMax * xnMax
  { qMobile := qMobile
    xnMax := xnMax
    xnMin := xnMin
    xpMax := xpMax
    xpMin := xpMin
    qMax := qMax
    Ro := 0.117215
    R := 8.3144621
    F := 96487
    alpha := 0.5
    Sn := 0.000437545
    Sp := 0.00030962
    kn := 2120.96
    kp := 248898
    Vol := Vol
    VolSFraction := VolSFraction
    VolS := VolS
    VolB := VolB
    qpMin := qpMin
    qpMax := qpMax
    qpSMin := qpMin * VolS / Vol
    qpBMin := qpMin * VolB / Vol
    qpSMax := qpMax * VolS / Vol
    qpBMax := qpMax * VolB / Vol
    qnMin := qnMin
    qnMax := qnMax
    qnSMax := qnMax * VolS / Vol
    qnBMax := qnMax * VolB / Vol
    qnSMin := qnMin * VolS / Vol
    qnBMin := qnMin * VolB / Vol
    qSMax := qMax * VolS / Vol
    qBMax := qMax * VolB / Vol
    tDiffusion := 7e6
    «to» := 6.08671
    tsn := 1.00138e3
    tsp := 46.4311
    U0p := 4.03
    Ap0 := -31593.7
    Ap1 := 0.106747
    Ap2 := 24606.4
    Ap3 := -78561.9
    Ap4 := 13317.9
    Ap5 := 307387
    Ap6 := 84916.1
    Ap7 := -1.07469e+6
    Ap8 := 2285.04
    Ap9 := 990894
    Ap10 := 283920
    Ap11 := -161513
    Ap12 := -469218
    U0n := 0.01
    An0 := 86.19
    An1 := 0
    An2 := 0
    An3 := 0
    An4 := 0
    An5 := 0
    An6 := 0
    An7 := 0
    An8 := 0
    An9 := 0
    An10 := 0
    An11 := 0
    An12 := 0
    VEOD := 3.2 }

/-- Fixed concrete parameter set `setParameters 7600`, used for concrete
counterexamples and witnesses. -/
def p76 : BatteryParams := Battery.setParameters 7600

/-- The 8-dimensional battery state vector.  Field order mirrors the index
convention of `Battery.cpp` (lines 64 to 71): `Tb = x[0]`, `Vo = x[1]`,
`Vsn = x[2]`, `Vsp = x[3]`, `qnB = x[4]`, `qnS = x[5]`, `qpB = x[6]`,
`qpS = x[7]`.  The same shape is reused for the additive process-noise
vector `n`. -/
@[ext]
structure BattState where
  Tb : ℚ
  Vo : ℚ
  Vsn : ℚ
  Vsp : ℚ
  qnB : ℚ
  qnS : ℚ
  qpB : ℚ
  qpS : ℚ
deriving DecidableEq

/-- The all-zero state/noise vector. -/
def BattState.zero : BattState :=
  { Tb := 0, Vo := 0, Vsn := 0, Vsp := 0, qnB := 0, qnS := 0, qpB := 0, qpS := 0 }

/-- The k-th Redlich-Kister summand, `A_k * (-2k x (1-x) (2x-1)^(k-1)
+ (2x-1)^(k+1)) / F`.  For each concrete `k` this unfolds to the literal
expression written out in `Battery.cpp` (for example `k = 7` gives line 105,
and `k = 0` gives line 108, since the first product carries the factor
`2 * 0 = 0` and natural subtraction gives exponent `0`). -/
def Battery.rkTerm (A F : ℚ) (k : ℕ) (x : ℚ) : ℚ :=
  A * (-(2 * (k : ℚ)) * x * (-x + 1) * (2 * x - 1) ^ (k - 1) + (2 * x - 1) ^ (k + 1)) / F

/-- Negative-electrode equilibrium potential `Ven` (`Battery.cpp` line 116,
identically lines 202 and 412), summed in the source order. -/
def Battery.Ven (p : BatteryParams) (fs : RealFuns) (Tb xnS : ℚ) : ℚ :=
  p.U0n + Battery.rkTerm p.An0 p.F 0 xnS + Battery.rkTerm p.An1 p.F 1 xnS
    + Battery.rkTerm p.An10 p.F 10 xnS + Battery.rkTerm p.An11 p.F 11 xnS
    + Battery.rkTerm p.An12 p.F 12 xnS + Battery.rkTerm p.An2 p.F 2 xnS
    + Battery.rkTerm p.An3 p.F 3 xnS + Battery.rkTerm p.An4 p.F 4 xnS
    + Battery.rkTerm p.An5 p.F 5 xnS + Battery.rkTerm p.An6 p.F 6 xnS
    + Battery.rkTerm p.An7 p.F 7 xnS + Battery.rkTerm p.An8 p.F 8 xnS
    + Battery.rkTerm p.An9 p.F 9 xnS
    + p.R * Tb * fs.log ((-xnS + 1) / xnS) / p.F

/-- Positive-electrode equilibrium potential `Vep` (`Battery.cpp` line 117,
identically lines 203 and 396), summed in the source order. -/
def Battery.Vep (p : BatteryParams) (fs : RealFuns) (Tb xpS : ℚ) : ℚ :=
  p.U0p + Battery.rkTerm p.Ap0 p.F 0 xpS + Battery.rkTerm p.Ap1 p.F 1 xpS
    + Battery.rkTerm p.Ap10 p.F 10 xpS + Battery.rkTerm p.Ap11 p.F 11 xpS
    + Battery.rkTerm p.Ap12 p.F 12 xpS + Battery.rkTerm p.Ap2 p.F 2 xpS
    + Battery.rkTerm p.Ap3 p.F 3 xpS + Battery.rkTerm p.Ap4 p.F 4 xpS
    + Battery.rkTerm p.Ap5 p.F 5 xpS + Battery.rkTerm p.Ap6 p.F 6 xpS
    + Battery.rkTerm p.Ap7 p.F 7 xpS + Battery.rkTerm p.Ap8 p.F 8 xpS
    + Battery.rkTerm p.Ap9 p.F 9 xpS
    + p.R * Tb * fs.log ((-xpS + 1) / xpS) / p.F

/-- Terminal voltage `V = -Ven + Vep - Vo - Vsn - Vsp` with surface mole
fractions `xnS = qnS / qSMax` and `xpS = qpS / qSMax`
(`Battery.cpp` lines 81, 87, 116 to 118; identically lines 173, 176,
202 to 204 in `outputEqn`). -/
def Battery.terminalV (p : BatteryParams) (fs : RealFuns) (x : BattState) : ℚ :=
  let xnS := x.qnS / p.qSMax
  let xpS := x.qpS / p.qSMax
  let V := -(Battery.Ven p fs x.Tb xnS) + Battery.Vep p fs x.Tb xpS - x.Vo - x.Vsn - x.Vsp
  V

/-- `Battery::stateEqn` (`Battery.cpp` lines 59 to 152): one explicit Euler
step of size `dt`, plus additive process noise scaled by `dt`.  The input
vector is the single applied power `u[0] = P`; the noise vector `n` shares
the state shape. -/
def Battery.stateEqn (p : BatteryParams) (fs : RealFuns) (_t : ℚ) (x : BattState)
    (u : ℚ) (n : BattState) (dt : ℚ) : BattState :=
  let Tb := x.Tb
  let Vo := x.Vo
  let Vsn := x.Vsn
  let Vsp := x.Vsp
  let qnB := x.qnB
  let qnS := x.qnS
  let qpB := x.qpB
  let qpS := x.qpS
  let P := u
  let Tbdot : ℚ := 0
  let CpBulk := qpB / p.VolB
  let CpSurface := qpS / p.VolS
  let CnSurface := qnS / p.VolS
  let xSn := qnS / p.qSMax
  let CnBulk := qnB / p.VolB
  let xSp := qpS / p.qBMax
  let qdotDiffusionBSp := (CpBulk - CpSurface) / p.tDiffusion
  let qdotDiffusionBSn := (CnBulk - CnSurface) / p.tDiffusion
  let Jn0 := p.kn * fs.rpow xSn p.alpha * fs.rpow (-xSn + 1) p.alpha
  let Jp0 := p.kp * fs.rpow xSp p.alpha * fs.rpow (-xSp + 1) p.alpha
  let V := Battery.terminalV p fs x
  let i := P / V
  let qnSdot := -i + qdotDiffusionBSn
  let Jn := i / p.Sn
  let VoNominal := p.Ro * i
  let Jp := i / p.Sp
  let qnBdot := -qdotDiffusionBSn
  let qpBdot := -qdotDiffusionBSp
  let qpSdot := i + qdotDiffusionBSp
  let Vodot := (-Vo + VoNominal) / p.«to»
  let VsnNominal := p.R * Tb * fs.asinh ((1 / 2) * Jn / Jn0) / (p.F * p.alpha)
  let VspNominal := p.R * Tb * fs.asinh ((1 / 2) * Jp / Jp0) / (p.F * p.alpha)
  let Vsndot := (-Vsn + VsnNominal) / p.tsn
  let Vspdot := (-Vsp + VspNominal) / p.tsp
  { Tb := Tb + Tbdot * dt + dt * n.Tb
    Vo := Vo + Vodot * dt + dt * n.Vo
    Vsn := Vsn + Vsndot * dt + dt * n.Vsn
    Vsp := Vsp + Vspdot * dt + dt * n.Vsp
    qnB := qnB + qnBdot * dt + dt * n.qnB
    qnS := qnS + qnSdot * dt + dt * n.qnS
    qpB := qpB + qpBdot * dt + dt * n.qpB
    qpS := qpS + qpSdot * dt + dt * n.qpS }

/-- `Battery::outputEqn` (`Battery.cpp` lines 155 to 214): outputs
`z[0] = Tbm = Tb - 273.15` and `z[1] = Vm = V`, plus additive measurement
noise `(n[0], n[1])`. -/
def Battery.outputEqn (p : BatteryParams) (fs : RealFuns) (_t : ℚ) (x : BattState)
    (_u : ℚ) (n : ℚ × ℚ) : ℚ × ℚ :=
  let Tbm := x.Tb - 273.15
  let Vm := Battery.terminalV p fs x
  (Tbm + n.1, Vm + n.2)

/-- `Battery::thresholdEqn` (`Battery.cpp` lines 217 to 225): calls
`outputEqn` with zero noise and tests `z[1] <= VEOD`. -/
def Battery.thresholdEqn (p : BatteryParams) (fs : RealFuns) (t : ℚ) (x : BattState)
    (u : ℚ) : Bool :=
  let z := Battery.outputEqn p fs t x u (0, 0)
  decide (z.2 ≤ p.VEOD)

/-- Pair up a flat parameter list as consecutive `(magnitude, duration)`
pairs, mirroring the stride-2 index loop of `Battery::inputEqn`
(`Battery.cpp` line 241). -/
def Battery.toPairs : List ℚ → List (ℚ × ℚ)
  | m :: d :: rest => (m, d) :: Battery.toPairs rest
  | _ => []

/-- The scan of `Battery::inputEqn` (`Battery.cpp` lines 240 to 252):
accumulate durations into `elapsed`; the first pair with `t ≤ elapsed + d`
supplies the magnitude; once the pairs run out, the magnitude of the last
pair (carried in the accumulator) is used. -/
def Battery.inputEqnLoop (t : ℚ) : ℚ → ℚ → List (ℚ × ℚ) → ℚ
  | _, fb, [] => fb
  | elapsed, _, (m, d) :: rest =>
      if t ≤ elapsed + d then m else Battery.inputEqnLoop t (elapsed + d) m rest

/-- `Battery::inputEqn` (`Battery.cpp` lines 228 to 253).  The C++ throws
`std::range_error` when the parameter list has fewer than two elements or
odd length; the embedding returns `none` in exactly that case and `some u0`
otherwise. -/
def Battery.inputEqn (t : ℚ) (inputParameters : List ℚ) : Option ℚ :=
  if inputParameters.length < 2 ∨ inputParameters.length % 2 ≠ 0 then none
  else some (Battery.inputEqnLoop t 0 0 (Battery.toPairs inputParameters))

/-- Pairs annotated with their cumulative end times, starting from a given
elapsed-time offset; used to state the segment-selection property of
`inputEqn`. -/
def Battery.cumPairs : ℚ → List (ℚ × ℚ) → List (ℚ × ℚ)
  | _, [] => []
  | e, (m, d) :: rest => (m, e + d) :: Battery.cumPairs (e + d) rest

/-- The candidate grid of `Battery::initialize` (`Battery.cpp` lines
359 to 365): positive mole fractions from `xi` in steps of `0.0001` while
`xi ≤ 1.0`, paired with the complementary negative fraction `1 - xi`. -/
def Battery.sweepFrom (xi : ℚ) : List (ℚ × ℚ) :=
  if h : xi ≤ 1 then (xi, 1 - xi) :: Battery.sweepFrom (xi + 0.0001)
  else []
termination_by (⌈(1 - xi) * 10000⌉ + 1).toNat
decreasing_by
  have e : (1 - (xi + 0.0001)) * 10000 = (1 - xi) * 10000 - 1 := by ring_nf
  have e2 : ⌈(1 - (xi + 0.0001)) * 10000⌉ = ⌈(1 - xi) * 10000⌉ - 1 := by
    rw [e]
    exact_mod_cast Int.ceil_sub_int ((1 - xi) * 10000) 1
  have hc : (0 : ℤ) ≤ ⌈((1 - xi) * 10000 : ℚ)⌉ := Int.ceil_nonneg (by nlinarith)
  omega

/-- Predicted voltage of one grid candidate `(xp, xn)`: the equilibrium
potential difference `Vep - Ven` minus the ohmic drop `Vo`
(`Battery.cpp` lines 380 to 416). -/
def Battery.candVolt (p : BatteryParams) (fs : RealFuns) (Tb Vo : ℚ) (c : ℚ × ℚ) : ℚ :=
  Battery.Vep p fs Tb c.1 - Battery.Ven p fs Tb c.2 - Vo

/-- The search loop of `Battery::initialize` (`Battery.cpp` lines
380 to 427): scan the candidate list in order, return the first candidate
whose predicted voltage is at most the observed voltage, and keep the
accumulator (the mole fractions initialized before the loop, lines
368 to 369) when no candidate qualifies. -/
def Battery.initSearch (p : BatteryParams) (fs : RealFuns) (Tb Vo voltage : ℚ) :
    List (ℚ × ℚ) → ℚ × ℚ → ℚ × ℚ
  | [], acc => acc
  | c :: rest, acc =>
      if Battery.candVolt p fs Tb Vo c ≤ voltage then c
      else Battery.initSearch p fs Tb Vo voltage rest acc

/-- The mole-fraction pair `(xpo, xno)` accepted by the grid search of
`Battery::initialize`, for observed input `u = u[0] = P` and output
`z = (z[0], z[1]) = (Tbm, Vm)` (`Battery.cpp` lines 356 to 427). -/
def Battery.initPair (p : BatteryParams) (fs : RealFuns) (u : ℚ) (z : ℚ × ℚ) : ℚ × ℚ :=
  let Tb := z.1 + 273.15
  let voltage := z.2
  let current := u / voltage
  let Vo := current * p.Ro
  Battery.initSearch p fs Tb Vo voltage (Battery.sweepFrom 0.4) (0.4, 0.6)

/-- `Battery::initialize` (`Battery.cpp` lines 356 to 446): derive the
initial state from one `(input, output)` observation via the grid search,
with surface charges from the accepted mole fractions, bulk charges at
equal concentration, and zero overpotential lags. -/
def Battery.initializeState (p : BatteryParams) (fs : RealFuns) (u : ℚ) (z : ℚ × ℚ) :
    BattState :=
  let Tb := z.1 + 273.15
  let voltage := z.2
  let current := u / voltage
  let Vo := current * p.Ro
  let pr := Battery.initPair p fs u z
  let qpS0 := p.qMax * pr.1 * p.VolS / p.Vol
  let qnS0 := p.qMax * pr.2 * p.VolS / p.Vol
  let qpB0 := qpS0 * p.VolB / p.VolS
  let qnB0 := qnS0 * p.VolB / p.VolS
  { Tb := Tb, Vo := Vo, Vsn := 0, Vsp := 0,
    qnB := qnB0, qnS := qnS0, qpB := qpB0, qpS := qpS0 }

/-- One externally visible collaborator call made by
`ModelBasedPrognoser::step`: the model state derivation, the observer
seeding, the observer estimation step, or the predictor run
(`ModelBasedPrognoser.cpp` lines 116, 117, 129, 136). -/
inductive MBPCall where
  | modelInit (x u z : List ℚ)
  | observerInit (t : ℚ) (x u : List ℚ)
  | observerStep (t : ℚ) (u z : List ℚ)
  | predictorPredict (t : ℚ)
deriving DecidableEq

/-- The mutable state of a `ModelBasedPrognoser`: the `initialized` flag,
`lastTime`, and the captured time origin (the function-local
`static double initialTime` of `ModelBasedPrognoser::step`, set from the
first sample; `none` before the first call). -/
structure MBPState where
  initialized : Bool
  lastTime : ℚ
  initialTime : Option ℚ
deriving DecidableEq

/-- `ModelBasedPrognoser::step` (`ModelBasedPrognoser.cpp` lines 93 to 142).
`modelInit` abstracts `model->initialize`; `timestampMs` is the absolute
bus timestamp in milliseconds of the first output signal; `u`, `z` are the
vectors read from the bus.  Returns the successor state together with the
ordered list of collaborator calls performed. -/
def ModelBasedPrognoser.step (modelInit : List ℚ → List ℚ → List ℚ)
    (s : MBPState) (timestampMs : ℚ) (u z : List ℚ) : MBPState × List MBPCall :=
  let it := s.initialTime.getD (timestampMs / 1000)
  let newT := timestampMs / 1000 - it
  if s.initialized = false then
    let x := modelInit u z
    ({ initialized := true, lastTime := newT, initialTime := some it },
     [MBPCall.modelInit x u z, MBPCall.observerInit newT x u])
  else if newT ≤ s.lastTime then
    ({ s with initialTime := some it }, [])
  else
    ({ s with lastTime := newT, initialTime := some it },
     [MBPCall.observerStep newT u z, MBPCall.predictorPredict newT])

/-- Iterate `ModelBasedPrognoser.step` over a sequence of bus samples
`(timestampMs, u, z)`, keeping only the state. -/
def ModelBasedPrognoser.run (modelInit : List ℚ → List ℚ → List ℚ)
    (s : MBPState) : List (ℚ × List ℚ × List ℚ) → MBPState
  | [] => s
  | (ts, u, z) :: rest =>
      ModelBasedPrognoser.run modelInit (ModelBasedPrognoser.step modelInit s ts u z).1 rest

/-- The accumulator scan of `inputEqn` selects the first cumulative-time
annotated pair satisfying the bound, and otherwise the last magnitude. -/
theorem inputEqnLoop_eq_cumPairs (t : ℚ) :
    ∀ (pairs : List (ℚ × ℚ)) (e fb : ℚ),
      Battery.inputEqnLoop t e fb pairs =
        (match (Battery.cumPairs e pairs).find? (fun pr => decide (t ≤ pr.2)) with
         | some pr => pr.1
         | none => (pairs.map Prod.fst).getLastD fb) := by
  intro pairs
  induction pairs with
  | nil =>
      intro e fb
      simp [Battery.inputEqnLoop, Battery.cumPairs]
  | cons hd tl ih =>
      intro e fb
      obtain ⟨m, d⟩ := hd
      by_cases h : t ≤ e + d
      · simp [Battery.inputEqnLoop, Battery.cumPairs, List.find?_cons_of_pos, h]
      · have hfalse : ¬ ((fun pr : ℚ × ℚ => decide (t ≤ pr.2)) (m, e + d) = true) := by
          simpa using h
        rw [show Battery.inputEqnLoop t e fb ((m, d) :: tl)
              = Battery.inputEqnLoop t (e + d) m tl from by
            simp [Battery.inputEqnLoop, h]]
        rw [show Battery.cumPairs e ((m, d) :: tl)
              = (m, e + d) :: Battery.cumPairs (e + d) tl from rfl]
        rw [List.find?_cons_of_neg _ (by simpa using h)]
        rw [ih (e + d) m]
        cases List.find? (fun pr : ℚ × ℚ => decide (t ≤ pr.2)) (Battery.cumPairs (e + d) tl) with
        | none => simp only [List.map_cons, List.getLastD_cons]
        | some pr => rfl

/-- The initialization search loop equals first-match selection with the
pre-loop default as fallback. -/
theorem initSearch_eq_find (p : BatteryParams) (fs : RealFuns) (Tb Vo voltage : ℚ) :
    ∀ (l : List (ℚ × ℚ)) (acc : ℚ × ℚ),
      Battery.initSearch p fs Tb Vo voltage l acc =
        (l.find? fun c => decide (Battery.candVolt p fs Tb Vo c ≤ voltage)).getD acc := by
  intro l
  induction l with
  | nil =>
      intro acc
      simp [Battery.initSearch]
  | cons c rest ih =>
      intro acc
      by_cases h : Battery.candVolt p fs Tb Vo c ≤ voltage
      · simp [Battery.initSearch, List.find?_cons_of_pos, h]
      · rw [show Battery.initSearch p fs Tb Vo voltage (c :: rest) acc
              = Battery.initSearch p fs Tb Vo voltage rest acc from by
            simp [Battery.initSearch, h]]
        rw [List.find?_cons_of_neg _ (by simpa using h)]
        exact ih acc

/-- Uniform bound on one Redlich-Kister summand on the unit interval:
each factor `(2x-1)^j` has absolute value at most `1` and `x(1-x)` at most
`1/4`. -/
theorem rkTerm_abs_le (A F : ℚ) (k : ℕ) (x : ℚ) (h0 : 0 ≤ x) (h1 : x ≤ 1)
    (hF : 0 < F) :
    |Battery.rkTerm A F k x| ≤ |A| * ((k : ℚ) / 2 + 1) / F := by
  have hw : |2 * x - 1| ≤ 1 := abs_le.mpr ⟨by linarith, by linarith⟩
  have hwj : ∀ j : ℕ, |(2 * x - 1) ^ j| ≤ 1 := by
    intro j
    rw [abs_pow]
    exact pow_le_one₀ (abs_nonneg _) hw
  have ha : |x * (-x + 1)| ≤ 1 / 4 := by
    rw [abs_of_nonneg (mul_nonneg h0 (by linarith))]
    nlinarith [sq_nonneg (2 * x - 1)]
  have hprod : |x * (-x + 1) * (2 * x - 1) ^ (k - 1)| ≤ 1 / 4 := by
    rw [abs_mul]
    calc |x * (-x + 1)| * |(2 * x - 1) ^ (k - 1)| ≤ 1 / 4 * 1 :=
          mul_le_mul ha (hwj (k - 1)) (abs_nonneg _) (by norm_num)
      _ = 1 / 4 := by norm_num
  have h2k : |(-(2 * (k : ℚ)) * x * (-x + 1) * (2 * x - 1) ^ (k - 1))| ≤ (k : ℚ) / 2 := by
    have e : -(2 * (k : ℚ)) * x * (-x + 1) * (2 * x - 1) ^ (k - 1)
        = -(2 * (k : ℚ) * (x * (-x + 1) * (2 * x - 1) ^ (k - 1))) := by ring
    rw [e, abs_neg, abs_mul, abs_of_nonneg (show (0 : ℚ) ≤ 2 * (k : ℚ) by positivity)]
    calc 2 * (k : ℚ) * |x * (-x + 1) * (2 * x - 1) ^ (k - 1)|
        ≤ 2 * (k : ℚ) * (1 / 4) := by
          exact mul_le_mul_of_nonneg_left hprod (by positivity)
      _ = (k : ℚ) / 2 := by ring
  have hinner : |(-(2 * (k : ℚ)) * x * (-x + 1) * (2 * x - 1) ^ (k - 1)
      + (2 * x - 1) ^ (k + 1))| ≤ (k : ℚ) / 2 + 1 := by
    calc |(-(2 * (k : ℚ)) * x * (-x + 1) * (2 * x - 1) ^ (k - 1) + (2 * x - 1) ^ (k + 1))|
        ≤ |(-(2 * (k : ℚ)) * x * (-x + 1) * (2 * x - 1) ^ (k - 1))| + |(2 * x - 1) ^ (k + 1)| :=
          abs_add _ _
      _ ≤ (k : ℚ) / 2 + 1 := add_le_add h2k (hwj (k + 1))
  rw [Battery.rkTerm, abs_div, abs_of_pos hF, abs_mul]
  gcongr

/-- Lower bound on the positive-electrode equilibrium potential over the
unit interval, for the default parameters and the zero interpretation of
`log` (the bound is independent of `Tb` because the logarithm term
vanishes). -/
theorem Vep_p76_lb (Tb x : ℚ) (h0 : 0 ≤ x) (h1 : x ≤ 1) :
    -300 ≤ Battery.Vep p76 zeroFuns Tb x := by
  have hF : (0 : ℚ) < 96487 := by norm_num
  have b0 := (abs_le.mp (rkTerm_abs_le (-31593.7) 96487 0 x h0 h1 hF)).1
  have b1 := (abs_le.mp (rkTerm_abs_le 0.106747 96487 1 x h0 h1 hF)).1
  have b2 := (abs_le.mp (rkTerm_abs_le 24606.4 96487 2 x h0 h1 hF)).1
  have b3 := (abs_le.mp (rkTerm_abs_le (-78561.9) 96487 3 x h0 h1 hF)).1
  have b4 := (abs_le.mp (rkTerm_abs_le 13317.9 96487 4 x h0 h1 hF)).1
  have b5 := (abs_le.mp (rkTerm_abs_le 307387 96487 5 x h0 h1 hF)).1
  have b6 := (abs_le.mp (rkTerm_abs_le 84916.1 96487 6 x h0 h1 hF)).1
  have b7 := (abs_le.mp (rkTerm_abs_le (-1.07469e+6) 96487 7 x h0 h1 hF)).1
  have b8 := (abs_le.mp (rkTerm_abs_le 2285.04 96487 8 x h0 h1 hF)).1
  have b9 := (abs_le.mp (rkTerm_abs_le 990894 96487 9 x h0 h1 hF)).1
  have b10 := (abs_le.mp (rkTerm_abs_le 283920 96487 10 x h0 h1 hF)).1
  have b11 := (abs_le.mp (rkTerm_abs_le (-161513) 96487 11 x h0 h1 hF)).1
  have b12 := (abs_le.mp (rkTerm_abs_le (-469218) 96487 12 x h0 h1 hF)).1
  norm_num [abs_div] at b0 b1 b2 b3 b4 b5 b6 b7 b8 b9 b10 b11 b12
  simp only [Battery.Vep, p76, Battery.setParameters, zeroFuns]
  norm_num
  linarith

/-- Upper bound on the negative-electrode equilibrium potential over the
unit interval, for the default parameters and the zero interpretation of
`log`: all coefficients except `An0 = 86.19` vanish. -/
theorem Ven_p76_ub (Tb y : ℚ) (h0 : 0 ≤ y) (h1 : y ≤ 1) :
    Battery.Ven p76 zeroFuns Tb y ≤ 1 := by
  have hF : (0 : ℚ) < 96487 := by norm_num
  have b0 := (abs_le.mp (rkTerm_abs_le 86.19 96487 0 y h0 h1 hF)).2
  have hz : ∀ k : ℕ, Battery.rkTerm 0 96487 k y = 0 := by
    intro k
    simp [Battery.rkTerm]
  norm_num [abs_div] at b0
  simp only [Battery.Ven, p76, Battery.setParameters, zeroFuns]
  norm_num [hz]
  linarith

/-- Every candidate of the grid sweep lies between the start value and `1`,
and carries the complementary negative mole fraction. -/
theorem sweepFrom_mem :
    ∀ (a : ℚ) (c : ℚ × ℚ), c ∈ Battery.sweepFrom a →
      a ≤ c.1 ∧ c.1 ≤ 1 ∧ c.2 = 1 - c.1 := by
  intro a
  induction a using Battery.sweepFrom.induct with
  | case1 a h ih =>
      intro c hc
      rw [Battery.sweepFrom, dif_pos h] at hc
      rcases List.mem_cons.mp hc with h1 | h2
      · subst h1
        exact ⟨le_refl _, h, rfl⟩
      · obtain ⟨ha1, ha2, ha3⟩ := ih c h2
        refine ⟨?_, ha2, ha3⟩
        have : (0 : ℚ) < 0.0001 := by norm_num
        linarith
  | case2 a h =>
      intro c hc
      rw [Battery.sweepFrom, dif_neg h] at hc
      simp at hc

/-- The last candidate of a sweep starting at `1 - k / 10000` (any number of
whole steps below `1`) is exactly `(1, 0)`. -/
theorem sweepFrom_getLastD (k : ℕ) :
    ∀ d : ℚ × ℚ, (Battery.sweepFrom (1 - (k : ℚ) / 10000)).getLastD d = (1, 0) := by
  induction k with
  | zero =>
      intro d
      rw [show (1 - ((0 : ℕ) : ℚ) / 10000) = 1 by norm_num]
      rw [Battery.sweepFrom, dif_pos (le_refl (1 : ℚ))]
      rw [Battery.sweepFrom, dif_neg (by norm_num : ¬ ((1 : ℚ) + 0.0001 ≤ 1))]
      norm_num
  | succ n ih =>
      intro d
      have h1 : (1 - ((n + 1 : ℕ) : ℚ) / 10000) ≤ 1 := by
        have : (0 : ℚ) ≤ ((n + 1 : ℕ) : ℚ) / 10000 := by positivity
        linarith
      rw [Battery.sweepFrom, dif_pos h1]
      rw [List.getLastD_cons]
      rw [show (1 - ((n + 1 : ℕ) : ℚ) / 10000) + 0.0001 = 1 - ((n : ℕ) : ℚ) / 10000 by
        push_cast
        ring_nf]
      exact ih _

/-- No candidate of the full sweep has predicted voltage at or below
`-1000` when the observed current is zero: the equilibrium potentials are
bounded on the grid. -/
theorem sweep_no_accept (c : ℚ × ℚ) (hc : c ∈ Battery.sweepFrom 0.4) :
    ¬ (Battery.candVolt p76 zeroFuns 293.15 0 c ≤ -1000) := by
  obtain ⟨h1, h2, h3⟩ := sweepFrom_mem 0.4 c hc
  have hx0 : (0 : ℚ) ≤ c.1 := by
    have : (0 : ℚ) ≤ 0.4 := by norm_num
    linarith
  have hy0 : (0 : ℚ) ≤ c.2 := by
    rw [h3]
    linarith
  have hy1 : c.2 ≤ 1 := by
    rw [h3]
    linarith
  have hVep := Vep_p76_lb 293.15 c.1 hx0 h2
  have hVen := Ven_p76_ub 293.15 c.2 hy0 hy1
  rw [Battery.candVolt]
  intro hle
  linarith

/-- C1 (amended): `Battery::initialize` sweeps the positive mole fraction
from `0.4` in steps of `0.0001` while it stays at most `1.0`, with
complementary negative fraction, and accepts the first candidate whose
predicted voltage (equilibrium potential difference minus the ohmic drop
`(u / z[1]) * Ro`) is at most the observed voltage `z[1]`; when no candidate
in the sweep satisfies the test, the pre-loop default pair
`(xp, xn) = (0.4, 0.6)` (the fully charged end) is used, not the last
scanned candidate. -/
theorem initPair_first_accepted (p : BatteryParams) (fs : RealFuns) (u : ℚ) (z : ℚ × ℚ) :
    Battery.initPair p fs u z =
      ((Battery.sweepFrom 0.4).find? (fun c =>
          decide (Battery.candVolt p fs (z.1 + 273.15) (u / z.2 * p.Ro) c ≤ z.2))).getD
        (0.4, 0.6) := by
  simp only [Battery.initPair]
  rw [initSearch_eq_find]

/-- C1 (counterexample): at observed output `(Tbm, Vm) = (20, -1000)` with
zero input power and default parameters (and the zero interpretation of the
transcendental functions), no candidate of the sweep passes the acceptance
test, the last candidate scanned is `(1, 0)`, yet the state is derived from
the default `xp = 0.4`, whose positive surface charge differs from the one
the last-scanned candidate would give.  This refutes the claim that the
no-candidate case uses the last-scanned candidate near `1.0`. -/
theorem initialize_fallback_uses_default_not_last :
    (Battery.sweepFrom 0.4).find?
        (fun c => decide (Battery.candVolt p76 zeroFuns 293.15 0 c ≤ -1000)) = none
  ∧ Battery.sweepFrom 0.4 ≠ []
  ∧ (Battery.sweepFrom 0.4).getLastD (0, 0) = (1, 0)
  ∧ Battery.initPair p76 zeroFuns 0 (20, -1000) = (0.4, 0.6)
  ∧ (Battery.initializeState p76 zeroFuns 0 (20, -1000)).qpS
      = p76.qMax * 0.4 * p76.VolS / p76.Vol
  ∧ (Battery.initializeState p76 zeroFuns 0 (20, -1000)).qpS
      ≠ p76.qMax * 1 * p76.VolS / p76.Vol := by
  have hnone : (Battery.sweepFrom 0.4).find?
      (fun c => decide (Battery.candVolt p76 zeroFuns 293.15 0 c ≤ -1000)) = none := by
    rw [List.find?_eq_none]
    intro c hc
    simpa using sweep_no_accept c hc
  have hne : Battery.sweepFrom 0.4 ≠ [] := by
    rw [Battery.sweepFrom, dif_pos (by norm_num : (0.4 : ℚ) ≤ 1)]
    simp
  have hlast : (Battery.sweepFrom 0.4).getLastD (0, 0) = (1, 0) := by
    have h := sweepFrom_getLastD 6000 (0, 0)
    rw [show (1 - ((6000 : ℕ) : ℚ) / 10000) = 0.4 by norm_num] at h
    exact h
  have hpair : Battery.initPair p76 zeroFuns 0 (20, -1000) = (0.4, 0.6) := by
    rw [initPair_first_accepted]
    simp only [show ((20 : ℚ), (-1000 : ℚ)).1 + 273.15 = 293.15 by norm_num,
      show (0 : ℚ) / ((20 : ℚ), (-1000 : ℚ)).2 * p76.Ro = 0 by norm_num,
      show ((20 : ℚ), (-1000 : ℚ)).2 = (-1000 : ℚ) from rfl]
    rw [hnone]
    rfl
  have hqpS : (Battery.initializeState p76 zeroFuns 0 (20, -1000)).qpS
      = p76.qMax * 0.4 * p76.VolS / p76.Vol := by
    simp only [Battery.initializeState, hpair]
  refine ⟨hnone, hne, hlast, hpair, hqpS, ?_⟩
  rw [hqpS]
  norm_num [p76, Battery.setParameters]

/-- C2: once a `ModelBasedPrognoser` is initialized, a step whose computed
relative time does not exceed `lastTime` is a complete no-op (no observer
step, no prediction, state and `lastTime` unchanged), and `lastTime` is
monotonically non-decreasing over every sequence of steps. -/
theorem step_stale_noop_and_lastTime_monotone :
    (∀ (f : List ℚ → List ℚ → List ℚ) (s : MBPState) (ts : ℚ) (u z : List ℚ) (t0 : ℚ),
        s.initialized = true → s.initialTime = some t0 →
        ts / 1000 - t0 ≤ s.lastTime →
        ModelBasedPrognoser.step f s ts u z = (s, [])) ∧
    (∀ (f : List ℚ → List ℚ → List ℚ) (s : MBPState)
        (samples : List (ℚ × List ℚ × List ℚ)),
        s.initialized = true →
        s.lastTime ≤ (ModelBasedPrognoser.run f s samples).lastTime) := by
  constructor
  · intro f s ts u z t0 hinit hit hstale
    obtain ⟨ini, lt, it⟩ := s
    simp only at hinit hit
    subst hinit
    subst hit
    simp only at hstale
    simp [ModelBasedPrognoser.step, hstale]
  · intro f s samples
    induction samples generalizing s with
    | nil =>
        intro _
        simp [ModelBasedPrognoser.run]
    | cons smp rest ih =>
        intro h
        obtain ⟨ts, u, z⟩ := smp
        have hstep : ((ModelBasedPrognoser.step f s ts u z).1.initialized = true)
            ∧ s.lastTime ≤ (ModelBasedPrognoser.step f s ts u z).1.lastTime := by
          obtain ⟨ini, lt, it⟩ := s
          simp only at h
          subst h
          simp only [ModelBasedPrognoser.step]
          by_cases hc : ts / 1000 - (Option.getD it (ts / 1000)) ≤ lt
          · simp [hc]
          · simp [hc]
            linarith [not_le.mp hc]
        rw [ModelBasedPrognoser.run]
        calc s.lastTime ≤ (ModelBasedPrognoser.step f s ts u z).1.lastTime := hstep.2
          _ ≤ (ModelBasedPrognoser.run f (ModelBasedPrognoser.step f s ts u z).1 rest).lastTime :=
              ih _ hstep.1

/-- C2 (witness): a concrete initialized state with `lastTime = 5` and a
stale sample at relative time `4` is left untouched, and `lastTime` does
not decrease over a concrete sample sequence. -/
theorem step_stale_noop_witness :
    ModelBasedPrognoser.step (fun _ _ => []) ⟨true, 5, some 0⟩ 4000 [] []
        = (⟨true, 5, some 0⟩, [])
    ∧ (⟨true, 5, some 0⟩ : MBPState).lastTime ≤
        (ModelBasedPrognoser.run (fun _ _ => []) ⟨true, 5, some 0⟩ [(7000, [], [])]).lastTime :=
  ⟨step_stale_noop_and_lastTime_monotone.1 (fun _ _ => []) ⟨true, 5, some 0⟩ 4000 [] [] 0
      rfl rfl (by norm_num),
   step_stale_noop_and_lastTime_monotone.2 (fun _ _ => []) ⟨true, 5, some 0⟩
      [(7000, [], [])] rfl⟩

/-- C6: on the very first call (flag `initialized` still false) the step
performs exactly the model state derivation and the observer seeding, never
an observer step or a prediction, sets `initialized`, and records
`lastTime` as the computed relative time. -/
theorem step_first_call_initializes_only :
    ∀ (f : List ℚ → List ℚ → List ℚ) (s : MBPState) (ts : ℚ) (u z : List ℚ),
      s.initialized = false →
      ModelBasedPrognoser.step f s ts u z =
        ({ initialized := true,
           lastTime := ts / 1000 - s.initialTime.getD (ts / 1000),
           initialTime := some (s.initialTime.getD (ts / 1000)) },
         [MBPCall.modelInit (f u z) u z,
          MBPCall.observerInit (ts / 1000 - s.initialTime.getD (ts / 1000)) (f u z) u]) := by
  intro f s ts u z h
  simp [ModelBasedPrognoser.step, h]

/-- C6 (witness): a concrete fresh instance at its first sample performs
only model initialization and observer seeding, with relative time `0`. -/
theorem step_first_call_witness :
    ModelBasedPrognoser.step (fun _ _ => [9]) ⟨false, 0, none⟩ 2000 [1] [2] =
      (⟨true, 0, some 2⟩, [MBPCall.modelInit [9] [1] [2], MBPCall.observerInit 0 [9] [1]]) := by
  have h := step_first_call_initializes_only (fun _ _ => [9]) ⟨false, 0, none⟩ 2000 [1] [2] rfl
  rw [h]
  norm_num

/-- C3: for a well-formed profile (even length at least two),
`Battery::inputEqn` returns the magnitude of the first pair whose
cumulative duration sum reaches `t` (boundary inclusive, since the test is
`t ≤ elapsed`, the segment ending exactly at `t` is selected), and the
magnitude of the last pair when `t` exceeds every cumulative sum. -/
theorem inputEqn_segment_selection (t : ℚ) (ps : List ℚ)
    (h1 : 2 ≤ ps.length) (h2 : ps.length % 2 = 0) :
    Battery.inputEqn t ps =
      some (match (Battery.cumPairs 0 (Battery.toPairs ps)).find?
              (fun pr => decide (t ≤ pr.2)) with
            | some pr => pr.1
            | none => ((Battery.toPairs ps).map Prod.fst).getLastD 0) := by
  rw [Battery.inputEqn, if_neg (by omega)]
  exact congrArg some (inputEqnLoop_eq_cumPairs t (Battery.toPairs ps) 0 0)

/-- C3 (witness): profile `[(2, 3), (7, 4)]` at `t = 5` selects the second
segment, whose cumulative end is `7 ≥ 5`. -/
theorem inputEqn_segment_selection_witness :
    Battery.inputEqn 5 [2, 3, 7, 4] = some 7 := by
  rw [inputEqn_segment_selection 5 [2, 3, 7, 4] (by decide) (by decide)]
  norm_num [Battery.toPairs, Battery.cumPairs, List.find?]

/-- C4: `Battery::thresholdEqn` holds exactly when the voltage output
`z[1]` of `outputEqn` under zero measurement noise is at most the
configured `VEOD` threshold (boundary inclusive), and it depends on the
state only through `outputEqn`. -/
theorem thresholdEqn_via_outputEqn :
    (∀ (p : BatteryParams) (fs : RealFuns) (t : ℚ) (x : BattState) (u : ℚ),
        Battery.thresholdEqn p fs t x u = true ↔
          (Battery.outputEqn p fs t x u (0, 0)).2 ≤ p.VEOD) ∧
    (∀ (p : BatteryParams) (fs : RealFuns) (t : ℚ) (x y : BattState) (u : ℚ),
        Battery.outputEqn p fs t x u (0, 0) = Battery.outputEqn p fs t y u (0, 0) →
        Battery.thresholdEqn p fs t x u = Battery.thresholdEqn p fs t y u) := by
  constructor
  · intro p fs t x u
    simp [Battery.thresholdEqn]
  · intro p fs t x y u h
    simp only [Battery.thresholdEqn, h]

/-- C4 (witness): two states that differ only in the bulk charge `qnB`
(which `outputEqn` does not read) get the same threshold verdict. -/
theorem thresholdEqn_via_outputEqn_witness :
    Battery.thresholdEqn p76 zeroFuns 0 BattState.zero 0 =
      Battery.thresholdEqn p76 zeroFuns 0 { BattState.zero with qnB := 1 } 0 :=
  thresholdEqn_via_outputEqn.2 p76 zeroFuns 0 BattState.zero
    { BattState.zero with qnB := 1 } 0 rfl

/-- C5: `Battery::inputEqn` fails (raises, modelled as `none`, writing
nothing) exactly for profiles of length `0`, `1`, or odd length; every
even-length profile with at least two entries succeeds. -/
theorem inputEqn_arity_guard :
    ∀ (t : ℚ) (ps : List ℚ),
      Battery.inputEqn t ps = none ↔ ps.length < 2 ∨ ps.length % 2 = 1 := by
  intro t ps
  rw [Battery.inputEqn]
  split_ifs with h
  · constructor
    · intro _
      omega
    · intro _
      rfl
  · constructor
    · intro hc
      simp at hc
    · intro hc
      exfalso
      omega

/-- C7: with surface mole fractions strictly inside `(0, 1)`, nonzero
terminal voltage, and zero process noise, a `stateEqn` step of duration
`dt = 0` is the identity on all eight state components. -/
theorem stateEqn_zero_dt_identity (p : BatteryParams) (fs : RealFuns) (t : ℚ)
    (x : BattState) (u : ℚ)
    (h1 : 0 < x.qnS / p.qSMax) (h2 : x.qnS / p.qSMax < 1)
    (h3 : 0 < x.qpS / p.qSMax) (h4 : x.qpS / p.qSMax < 1)
    (h5 : Battery.terminalV p fs x ≠ 0) :
    Battery.stateEqn p fs t x u BattState.zero 0 = x := by
  ext <;> simp [Battery.stateEqn, BattState.zero]

/-- C9: for zero process noise on the four charge components, one
`stateEqn` step of any duration preserves the total charge
`x[4] + x[5] + x[6] + x[7]` exactly: the diffusion contributions cancel
within each electrode and the current leaving the negative surface equals
the current entering the positive surface. -/
theorem stateEqn_charge_conservation (p : BatteryParams) (fs : RealFuns) (t : ℚ)
    (x : BattState) (u dt : ℚ) (n : BattState)
    (h1 : 0 < x.qnS / p.qSMax) (h2 : x.qnS / p.qSMax < 1)
    (h3 : 0 < x.qpS / p.qSMax) (h4 : x.qpS / p.qSMax < 1)
    (h5 : Battery.terminalV p fs x ≠ 0)
    (hn1 : n.qnB = 0) (hn2 : n.qnS = 0) (hn3 : n.qpB = 0) (hn4 : n.qpS = 0) :
    (Battery.stateEqn p fs t x u n dt).qnB + (Battery.stateEqn p fs t x u n dt).qnS
      + (Battery.stateEqn p fs t x u n dt).qpB + (Battery.stateEqn p fs t x u n dt).qpS
      = x.qnB + x.qnS + x.qpB + x.qpS := by
  simp only [Battery.stateEqn, hn1, hn2, hn3, hn4]
  ring

/-- C10: the bulk-temperature derivative is hard-coded to zero, so with
zero noise on component `0` a `stateEqn` step of any duration and any
input leaves `x[0]` unchanged; its update depends on no other component. -/
theorem stateEqn_Tb_frame (p : BatteryParams) (fs : RealFuns) (t : ℚ) (x : BattState)
    (u dt : ℚ) (n : BattState) (h : n.Tb = 0) :
    (Battery.stateEqn p fs t x u n dt).Tb = x.Tb := by
  simp [Battery.stateEqn, h]

/-- C8: the state built by `Battery::initialize` has zero overpotential
lags, surface charges `qS = qMax * x * VolS / Vol` from the accepted mole
fractions, and bulk charges at equal concentration,
`qB = qS * VolB / VolS`. -/
theorem initializeState_derived_components (p : BatteryParams) (fs : RealFuns)
    (u : ℚ) (z : ℚ × ℚ) :
    (Battery.initializeState p fs u z).Vsn = 0
  ∧ (Battery.initializeState p fs u z).Vsp = 0
  ∧ (Battery.initializeState p fs u z).qpS
      = p.qMax * (Battery.initPair p fs u z).1 * p.VolS / p.Vol
  ∧ (Battery.initializeState p fs u z).qnS
      = p.qMax * (Battery.initPair p fs u z).2 * p.VolS / p.Vol
  ∧ (Battery.initializeState p fs u z).qpB
      = (Battery.initializeState p fs u z).qpS * p.VolB / p.VolS
  ∧ (Battery.initializeState p fs u z).qnB
      = (Battery.initializeState p fs u z).qnS * p.VolB / p.VolS :=
  ⟨rfl, rfl, rfl, rfl, rfl, rfl⟩

/-- C7 (witness): a concrete half-charged state at `293.15 K` with both
surface mole fractions `1/2` (strictly inside the domain) and nonzero
terminal voltage is left unchanged by a zero-duration noiseless step. -/
theorem stateEqn_zero_dt_identity_witness :
    Battery.stateEqn p76 zeroFuns 0
        { Tb := 293.15, Vo := 0, Vsn := 0, Vsp := 0,
          qnB := 633, qnS := p76.qSMax / 2, qpB := 633, qpS := p76.qSMax / 2 }
        1 BattState.zero 0 =
      { Tb := 293.15, Vo := 0, Vsn := 0, Vsp := 0,
        qnB := 633, qnS := p76.qSMax / 2, qpB := 633, qpS := p76.qSMax / 2 } := by
  apply stateEqn_zero_dt_identity
  · norm_num [p76, Battery.setParameters]
  · norm_num [p76, Battery.setParameters]
  · norm_num [p76, Battery.setParameters]
  · norm_num [p76, Battery.setParameters]
  · norm_num [Battery.terminalV, Battery.Ven, Battery.Vep, Battery.rkTerm,
      p76, Battery.setParameters, zeroFuns]

/-- C9 (witness): the same concrete state under input power `1`, timestep
`2`, and zero noise keeps its total charge. -/
theorem stateEqn_charge_conservation_witness :
    (Battery.stateEqn p76 zeroFuns 0
        { Tb := 293.15, Vo := 0, Vsn := 0, Vsp := 0,
          qnB := 633, qnS := p76.qSMax / 2, qpB := 633, qpS := p76.qSMax / 2 }
        1 BattState.zero 2).qnB
      + (Battery.stateEqn p76 zeroFuns 0
          { Tb := 293.15, Vo := 0, Vsn := 0, Vsp := 0,
            qnB := 633, qnS := p76.qSMax / 2, qpB := 633, qpS := p76.qSMax / 2 }
          1 BattState.zero 2).qnS
      + (Battery.stateEqn p76 zeroFuns 0
          { Tb := 293.15, Vo := 0, Vsn := 0, Vsp := 0,
            qnB := 633, qnS := p76.qSMax / 2, qpB := 633, qpS := p76.qSMax / 2 }
          1 BattState.zero 2).qpB
      + (Battery.stateEqn p76 zeroFuns 0
          { Tb := 293.15, Vo := 0, Vsn := 0, Vsp := 0,
            qnB := 633, qnS := p76.qSMax / 2, qpB := 633, qpS := p76.qSMax / 2 }
          1 BattState.zero 2).qpS
      = 633 + p76.qSMax / 2 + 633 + p76.qSMax / 2 := by
  apply stateEqn_charge_conservation
  · norm_num [p76, Battery.setParameters]
  · norm_num [p76, Battery.setParameters]
  · norm_num [p76, Battery.setParameters]
  · norm_num [p76, Battery.setParameters]
  · norm_num [Battery.terminalV, Battery.Ven, Battery.Vep, Battery.rkTerm,
      p76, Battery.setParameters, zeroFuns]
  · rfl
  · rfl
  · rfl
  · rfl

/-- C10 (witness): a step of duration `7` under input power `3` from the
all-zero state with zero noise leaves the bulk temperature unchanged. -/
theorem stateEqn_Tb_frame_witness :
    (Battery.stateEqn p76 zeroFuns 0 BattState.zero 3 BattState.zero 7).Tb
      = BattState.zero.Tb :=
  stateEqn_Tb_frame p76 zeroFuns 0 BattState.zero 3 7 BattState.zero rfl
